import Mathlib

/-!
Verification development for the arp-runtime orchestration core.

The definitions below are a shallow embedding of the TypeScript sources:
  * backend/packages/orchestrator/src/index.ts   (HTTP handlers open / message / message-stream)
  * backend/packages/orchestrator/src/lib/quota.ts
  * backend/packages/orchestrator/src/lib/lock-manager.ts
  * backend/packages/workspace-manager/src/index.ts
  * the idle reaper (reapIdleWorkspaces) and GC worker (runWorkspaceGC)
  * the evidence builder (EvidenceBuilder.buildBundle)

Timestamps are modelled as natural numbers (milliseconds), database rows as
Lean structures, and each HTTP handler or background sweep as a function on
an explicit database state.
-/

namespace Arp

/-- Workspace lifecycle states, from backend/infra/schema.sql
(`-- warm, cold, error`) plus the `deleted` state written by runWorkspaceGC. -/
inductive WsState
  | warm
  | cold
  | error
  | deleted
deriving DecidableEq, Repr

/-- A row of the `workspaces` table (the columns the orchestration logic
reads and writes). -/
structure Workspace where
  id : String
  userId : String
  projectId : String
  state : WsState
  containerId : Option String
  volumeName : Option String
  threadId : Option String
  lastActiveAt : Nat
  idleExpiresAt : Option Nat
deriving DecidableEq, Repr

/-- Run statuses from the schema comment (`-- queued, running, succeeded,
failed, timeout`); the orchestrator only ever writes `running`, `succeeded`
and `failed`. -/
inductive RunStatus
  | running
  | succeeded
  | failed
  | timeout
deriving DecidableEq, Repr

/-- A row of the `runs` table (the columns relevant to the claims). -/
structure Run where
  id : String
  userId : String
  projectId : String
  workspaceId : String
  status : RunStatus
  startedAt : Nat
  finishedAt : Option Nat
  errorMessage : Option String
deriving DecidableEq, Repr

/-- The database state acted on by the handlers and sweepers. -/
structure Db where
  workspaces : List Workspace
  runs : List Run
deriving DecidableEq, Repr

/-- The empty database. -/
def initDb : Db := ⟨[], []⟩

/-- From quota.ts: the count in
`select count(id) from runs where user_id=? and started_at >= startOfDay`. -/
def quotaCount (runs : List Run) (userId : String) (startOfDay : Nat) : Nat :=
  runs.countP (fun r => r.userId == userId && decide (startOfDay ≤ r.startedAt))

/-- From quota.ts `checkQuota`: true iff the user's count of runs started at
or after the start of the current UTC day is below the configured maximum. -/
def checkQuota (runs : List Run) (userId : String) (startOfDay maxRuns : Nat) : Bool :=
  decide (quotaCount runs userId startOfDay < maxRuns)

/-- From workspace-manager createWarmWorkspace line 16:
`const volumeName = \x7bws-$(projectId)\x7d` — the volume is named after the
project id. -/
def volumeNameFor (projectId : String) : String := "ws-" ++ projectId

/-- From index.ts open handler: `idle_expires_at = now + 20 minutes`
(hard-coded `20 * 60 * 1000`). -/
def openIdleMs : Nat := 20 * 60 * 1000

/-- Arguments of one `POST /projects/:id/open` request. `sandbox` is the
container id returned by `createWarmWorkspace`, or `none` when the container
start or the clone failed (the call threw). `freshId` is the id the database
generates if a new workspace row is inserted. -/
structure OpenArgs where
  uid : String
  pid : String
  projectFound : Bool
  sandbox : Option String
  freshId : String
  now : Nat
deriving DecidableEq, Repr

/-- Result of an open request, as surfaced over HTTP. -/
inductive OpenResult
  | ok (workspaceId : String)
  | notFound
  | serverError
deriving DecidableEq, Repr

/-- From index.ts open handler lines 192-218 (the LRU stop pass): every other
workspace of this user with `state = warm` and a different project is updated
to `\x7bstate: cold, container_id: null\x7d` (the container stop itself is
best-effort and does not affect the row update). -/
def lruPass (uid pid : String) (rows : List Workspace) : List Workspace :=
  rows.map fun w =>
    if w.state == .warm && w.projectId != pid && w.userId == uid then
      { w with state := .cold, containerId := none }
    else w

/-- From index.ts open handler lines 168-288. Order as in the source: project
lookup (404 when absent), target workspace lookup, LRU stop pass, early return
when the target is already warm with a live container, then the sandbox path
and the warm upsert; on sandbox failure the catch just returns a 500 without
touching the target row. -/
def openExec (a : OpenArgs) (db : Db) : Db × OpenResult :=
  if !a.projectFound then (db, .notFound)
  else
    let target := db.workspaces.find? (fun w => w.projectId == a.pid && w.userId == a.uid)
    let rows1 := lruPass a.uid a.pid db.workspaces
    match target with
    | some w =>
      if w.state == .warm && w.containerId.isSome then
        ({ db with workspaces := rows1 }, .ok w.id)
      else
        match a.sandbox with
        | none => ({ db with workspaces := rows1 }, .serverError)
        | some cid =>
          let rows2 := rows1.map fun v =>
            if v.id == w.id then
              { v with state := .warm, containerId := some cid,
                       idleExpiresAt := some (a.now + openIdleMs),
                       lastActiveAt := a.now }
            else v
          ({ db with workspaces := rows2 }, .ok w.id)
    | none =>
      match a.sandbox with
      | none => ({ db with workspaces := rows1 }, .serverError)
      | some cid =>
        let newRow : Workspace :=
          { id := a.freshId, userId := a.uid, projectId := a.pid,
            state := .warm, containerId := some cid,
            volumeName := some (volumeNameFor a.pid), threadId := none,
            lastActiveAt := a.now, idleExpiresAt := some (a.now + openIdleMs) }
        ({ db with workspaces := rows1 ++ [newRow] }, .ok a.freshId)

/-- The agent worker's response body `(finalText, diff, threadId)`. -/
structure WorkerResp where
  finalText : String
  diff : String
  threadId : String
deriving DecidableEq, Repr

/-- Result of a `POST /projects/:id/message` request. -/
inductive MsgResult
  | ok (runId : String)
  | quotaExceeded
  | noWarmWorkspace
  | serverError
deriving DecidableEq, Repr

/-- Arguments of one message request. `worker = none` models the worker call
throwing (non-2xx, transport error, or the AbortController firing), with
`workerErr` the thrown message; `fin` is the wall clock when the handler
resumes after the call. -/
structure MsgArgs where
  uid : String
  pid : String
  runId : String
  startOfDay : Nat
  maxRuns : Nat
  now : Nat
  fin : Nat
  idleMs : Nat
  worker : Option WorkerResp
  workerErr : String
deriving DecidableEq, Repr

/-- `update runs set ... where id = runId`. -/
def updateRunBy (runs : List Run) (runId : String) (f : Run → Run) : List Run :=
  runs.map fun r => if r.id == runId then f r else r

/-- From index.ts message handler lines 290-497 (the stream handler lines
500-777 performs the same database transitions): quota gate, warm-workspace
lookup, Run insert with `status = running`, worker call, then either the
succeeded update (plus the workspace `thread_id` / activity refresh) or the
failed update. -/
def messageExec (a : MsgArgs) (db : Db) : Db × MsgResult :=
  if !checkQuota db.runs a.uid a.startOfDay a.maxRuns then (db, .quotaExceeded)
  else
    match db.workspaces.find?
        (fun w => w.projectId == a.pid && w.userId == a.uid && w.state == WsState.warm) with
    | none => (db, .noWarmWorkspace)
    | some w =>
      if w.containerId.isNone then (db, .noWarmWorkspace)
      else
        let newRun : Run :=
          { id := a.runId, userId := a.uid, projectId := a.pid,
            workspaceId := w.id, status := .running, startedAt := a.now,
            finishedAt := none, errorMessage := none }
        let runs1 := db.runs ++ [newRun]
        match a.worker with
        | some resp =>
          let runs2 := updateRunBy runs1 a.runId fun r =>
            { r with status := .succeeded, finishedAt := some a.fin }
          let rows2 := db.workspaces.map fun v =>
            if v.id == w.id then
              { v with threadId := some resp.threadId, lastActiveAt := a.fin,
                       idleExpiresAt := some (a.fin + a.idleMs) }
            else v
          (⟨rows2, runs2⟩, .ok a.runId)
        | none =>
          let runs2 := updateRunBy runs1 a.runId fun r =>
            { r with status := .failed, finishedAt := some a.fin,
                     errorMessage := some a.workerErr }
          (⟨db.workspaces, runs2⟩, .serverError)

/-- From reapIdleWorkspaces: the selection
`state = warm and idle_expires_at < now and container_id is not null`. -/
def reapHit (now : Nat) (w : Workspace) : Bool :=
  w.state == .warm
    && (match w.idleExpiresAt with
        | some t => decide (t < now)
        | none => false)
    && w.containerId.isSome

/-- From reapIdleWorkspaces: each selected workspace is updated to
`\x7bstate: cold, container_id: null\x7d`; `thread_id` and `volume_name` are
kept. -/
def reapExec (now : Nat) (db : Db) : Db :=
  { db with
    workspaces := db.workspaces.map fun w =>
      if reapHit now w then { w with state := .cold, containerId := none } else w }

/-- From runWorkspaceGC: the selection
`state = cold and last_active_at < limitDate and volume_name is not null`. -/
def gcHit (limit : Nat) (w : Workspace) : Bool :=
  w.state == .cold && decide (w.lastActiveAt < limit) && w.volumeName.isSome

/-- From runWorkspaceGC: each selected workspace is updated to
`\x7bstate: deleted, volume_name: null\x7d` after the best-effort volume
deletion. -/
def wsGCExec (limit : Nat) (db : Db) : Db :=
  { db with
    workspaces := db.workspaces.map fun w =>
      if gcHit limit w then { w with state := .deleted, volumeName := none } else w }

/-- One observable operation of the control plane. -/
inductive Step
  | openWs (a : OpenArgs)
  | message (a : MsgArgs)
  | reap (now : Nat)
  | wsGC (limit : Nat)
deriving DecidableEq, Repr

/-- Execute one operation against the database. -/
def exec (db : Db) : Step → Db
  | .openWs a => (openExec a db).1
  | .message a => (messageExec a db).1
  | .reap now => reapExec now db
  | .wsGC limit => wsGCExec limit db

/-- Execute a sequence of operations. -/
def execTrace (db : Db) : List Step → Db
  | [] => db
  | s :: rest => execTrace (exec db s) rest

/-- A step is well formed if, whenever it is an open, the id the database
would generate for a fresh insert is not already the id of a workspace row
(uuid primary keys never collide). -/
def freshOk (db : Db) : Step → Bool
  | .openWs a => !((db.workspaces.map (fun w => w.id)).contains a.freshId)
  | _ => true

/-- Well-formedness of a trace: each step's fresh id is fresh in the state
it executes against. -/
def wfTrace (db : Db) : List Step → Bool
  | [] => true
  | s :: rest => freshOk db s && wfTrace (exec db s) rest

/-- Number of warm workspaces a user owns, the count in spec §8 invariant 1. -/
def warmCount (u : String) (rows : List Workspace) : Nat :=
  rows.countP (fun w => w.userId == u && w.state == WsState.warm)

/-- The predicate counted by `warmCount`. -/
def warmP (u : String) (w : Workspace) : Bool :=
  w.userId == u && w.state == WsState.warm

/-- The auxiliary database invariant: workspace ids are pairwise distinct
(uuid primary key), (user, project) pairs are pairwise distinct (one
workspace row per user and project), and every user owns at most one warm
workspace. -/
structure DbInv (db : Db) : Prop where
  ids : (db.workspaces.map (fun w => w.id)).Nodup
  keys : (db.workspaces.map (fun w => (w.userId, w.projectId))).Nodup
  warm : ∀ u, warmCount u db.workspaces ≤ 1

/-! ### Token synthesis, from the stream handler

`const tokens = result.finalText.split(/(\s+)/)` splits on runs of
whitespace while keeping each whitespace run as its own array element; when
the text begins (or ends) with whitespace, JavaScript inserts an empty string
before (after) the first (last) separator. The loop then emits
`\x7btype: token, delta: tokens[i], sequence: i\x7d` for every `i` with
`tokens[i].length > 0`. -/

/-- Prepend one character to a chunk list. The chunk list alternates
non-whitespace chunk, whitespace run, non-whitespace chunk, ...; a
non-whitespace character extends the leading chunk, a whitespace character
extends the leading whitespace run (when the leading chunk is empty) or opens
a new run preceded by an empty chunk. -/
def splitCons (c : Char) (chunks : List (List Char)) : List (List Char) :=
  match chunks with
  | [] => if c.isWhitespace then [[], [c], []] else [[c]]
  | h :: t =>
    if c.isWhitespace then
      match h, t with
      | [], w :: rest => [] :: (c :: w) :: rest
      | _, _ => [] :: [c] :: h :: t
    else (c :: h) :: t

/-- JavaScript `s.split(/(\s+)/)` on the character list of `s`: maximal
whitespace runs are kept as their own elements, and an empty string stands
before a leading (after a trailing) run. -/
def jsSplitWS (s : List Char) : List (List Char) := s.foldr splitCons [[]]

/-- The `sequence` values of the token events emitted by the stream handler:
indices `i` of the split with `tokens[i].length > 0`, in loop order. -/
def tokenSeqs (s : List Char) : List Nat :=
  ((jsSplitWS s).enum.filter (fun p => !p.2.isEmpty)).map Prod.fst

/-! ### Canonical events, from index.ts -/

/-- Canonical event payloads (run-start, token, diff, run-complete). -/
inductive Ev
  | runStart
  | token (delta : String) (sequence : Nat)
  | diffEv (diff : String)
  | runComplete (status : RunStatus) (err : Option String)
deriving DecidableEq, Repr

/-- Recognizes a run-complete event. -/
def isRunComplete : Ev → Bool
  | .runComplete _ _ => true
  | _ => false

/-- The `sequence` values carried by the token events of an event list, in
emission order. -/
def tokenSeqsOf (evs : List Ev) : List Nat :=
  evs.filterMap fun e =>
    match e with
    | .token _ s => some s
    | _ => none

/-- From index.ts message handler lines 361-390: on worker success the unary
handler assembles `[run-start, token (whole final_text, sequence 0, only if
final_text nonempty), diff (only if nonempty), run-complete succeeded]` and
writes exactly this list as events.jsonl. -/
def unaryEventsFile (finalText diff : String) : List Ev :=
  [Ev.runStart]
    ++ (if finalText ≠ "" then [Ev.token finalText 0] else [])
    ++ (if diff ≠ "" then [Ev.diffEv diff] else [])
    ++ [Ev.runComplete .succeeded none]

/-- From index.ts message handler lines 473-479: on worker failure the unary
handler writes `[run-start, run-complete failed]` as events.jsonl. -/
def unaryFailureEventsFile (errMsg : String) : List Ev :=
  [Ev.runStart, Ev.runComplete .failed (some errMsg)]

/-- Token events of the stream handler's synthesis loop (lines 630-642). -/
def streamTokenEvents (finalText : String) : List Ev :=
  ((jsSplitWS finalText.toList).enum.filter (fun p => !p.2.isEmpty)).map
    (fun p => Ev.token (String.mk p.2) p.1)

/-- Every event the stream handler emits to the SSE transport on the success
path, in emission order (lines 571, 630-649, 714). -/
def streamEmittedEvents (finalText diff : String) : List Ev :=
  Ev.runStart :: streamTokenEvents finalText
    ++ (if diff ≠ "" then [Ev.diffEv diff] else [])
    ++ [Ev.runComplete .succeeded none]

/-- The `runEvents` array at the moment the stream handler writes
events.jsonl on the success path (line 704): the run-complete event is only
emitted afterwards (line 714), so it is not part of the file. -/
def streamEventsFile (finalText diff : String) : List Ev :=
  Ev.runStart :: streamTokenEvents finalText
    ++ (if diff ≠ "" then [Ev.diffEv diff] else [])

/-- The `runEvents` array at the moment the stream handler writes
events.jsonl on the failure path (line 735), for a worker call that threw
before any token was emitted; run-complete is emitted at line 743, after the
write. -/
def streamFailureEventsFile : List Ev := [Ev.runStart]

/-! ### The per-key lock, from lib/lock-manager.ts

`LockManager.run(key, fn)` chains `fn` onto the tail promise stored for
`key`: the task awaits the previous chain, runs, then resolves its completion
signal. Tasks for one key therefore execute one at a time, strictly in the
order the `run` calls were made. The embedding schedules a list of requests
(in enqueue order): a task starts at the later of its enqueue time and the
release time of its key, and holds the key for its duration. -/

/-- A request to `LockManager.run`: key, enqueue time, duration of `fn`. -/
structure LockReq where
  key : String
  enq : Nat
  dur : Nat
deriving DecidableEq, Repr

/-- One executed task: its key and the half-open execution interval; `start`
is when `fn` begins (the moment the run row's `started_at` is taken). -/
structure LockSlot where
  key : String
  start : Nat
  stop : Nat
deriving DecidableEq, Repr

/-- Schedule requests in enqueue order; `avail k` is the time key `k` was
last released. -/
def lockScheduleAux (avail : String → Nat) : List LockReq → List LockSlot
  | [] => []
  | r :: rest =>
    let s := max (avail r.key) r.enq
    let e := s + r.dur
    ⟨r.key, s, e⟩ :: lockScheduleAux (fun k => if k = r.key then e else avail k) rest

/-- The execution slots produced by the lock manager for a request list. -/
def lockSchedule (reqs : List LockReq) : List LockSlot :=
  lockScheduleAux (fun _ => 0) reqs

/-! ### Evidence builder, from EvidenceBuilder.buildBundle -/

/-- Bundle statuses from the schema comment (`-- pending, ready, error`). -/
inductive BundleStatus
  | pending
  | ready
  | error
deriving DecidableEq, Repr

/-- Which fallible steps of `buildBundle` succeed, in source order: run row
lookup, workspace container availability, `getContainerArchive` + pipeline,
`tar -xf`, the copy into the bundle dir, the metadata/env/diff writes, the
`zip` invocation, and the DB update to ready. -/
structure BuildFlags where
  runFound : Bool
  containerAvail : Bool
  archiveOk : Bool
  extractOk : Bool
  copyOk : Bool
  writeOk : Bool
  zipOk : Bool
  dbReadyOk : Bool
deriving DecidableEq, Repr

/-- Observable outcome of one `buildBundle` call: the bundle row status it
writes, whether `<EVIDENCE_ROOT>/temp/<run_id>/` still exists on return, and
the recorded bundle path. -/
structure BuildOutcome where
  status : BundleStatus
  tempDirRemains : Bool
  bundlePath : Option String
deriving DecidableEq, Repr

/-- From EvidenceBuilder.buildBundle lines 30-174. The temp directory is
created after the run and workspace lookups succeed; `fs.rmSync(tempDir)` is
executed only at the end of the try block, after the ready update, and the
catch block updates the row to error without removing the temp directory. -/
def buildBundle (runId : String) (f : BuildFlags) : BuildOutcome :=
  if !f.runFound then ⟨.error, false, none⟩
  else if !f.containerAvail then ⟨.error, false, none⟩
  else if !f.archiveOk then ⟨.error, true, none⟩
  else if !f.extractOk then ⟨.error, true, none⟩
  else if !f.copyOk then ⟨.error, true, none⟩
  else if !f.writeOk then ⟨.error, true, none⟩
  else if !f.zipOk then ⟨.error, true, none⟩
  else if !f.dbReadyOk then ⟨.error, true, none⟩
  else ⟨.ready, false, some (runId ++ ".zip")⟩

/-! ### Timeout handling, from the stream handler -/

/-- From index.ts line 593:
`const timeout = setTimeout(() => controller.abort(), 10000)` — the hard
timeout applied to the streaming worker call (the unary handler sets none). -/
def streamWorkerTimeoutMs : Nat := 10000

/-! ## Theorems -/

/-- C7: after an idle-reaper sweep, every workspace that was warm with an
expired idle deadline and a non-null container id is cold with a null
container id, and its thread id and volume name are exactly what they were
before the sweep. -/
theorem reaper_cools_and_preserves (now : Nat) (db : Db) (w : Workspace)
    (hw : w ∈ db.workspaces) (h : reapHit now w = true) :
    ∃ w' ∈ (reapExec now db).workspaces,
      w'.id = w.id ∧ w'.state = .cold ∧ w'.containerId = none ∧
      w'.threadId = w.threadId ∧ w'.volumeName = w.volumeName := by
  refine ⟨{ w with state := .cold, containerId := none }, ?_, rfl, rfl, rfl, rfl, rfl⟩
  simp only [reapExec]
  exact List.mem_map.mpr ⟨w, hw, by simp [h]⟩

theorem reaper_cools_and_preserves_witness :
    ∃ w' ∈ (reapExec 11 ⟨[⟨"w1", "u1", "p1", .warm, some "c1", some "ws-p1",
        some "t1", 0, some 10⟩], []⟩).workspaces,
      w'.id = "w1" ∧ w'.state = .cold ∧ w'.containerId = none ∧
      w'.threadId = some "t1" ∧ w'.volumeName = some "ws-p1" :=
  reaper_cools_and_preserves 11
    ⟨[⟨"w1", "u1", "p1", .warm, some "c1", some "ws-p1", some "t1", 0, some 10⟩], []⟩
    ⟨"w1", "u1", "p1", .warm, some "c1", some "ws-p1", some "t1", 0, some 10⟩
    (by decide) (by decide)

/-- C10 counterexample: when `getContainerArchive` fails (all earlier steps
fine), `buildBundle` marks the bundle `error` but returns with the temp
staging directory still on disk, contradicting the claim that the temp
directory is removed on every exit path. -/
theorem buildBundle_temp_left_on_failure :
    (buildBundle "r1" ⟨true, true, false, true, true, true, true, true⟩).status
        = .error ∧
    (buildBundle "r1" ⟨true, true, false, true, true, true, true, true⟩).tempDirRemains
        = true := by decide

/-- C10 amended: `buildBundle` removes the temp directory on the success path
only; on any failure after the temp directory was created, the builder
returns with the directory still on disk and the bundle marked `error`. -/
theorem buildBundle_temp_cleanup (runId : String) (f : BuildFlags) :
    ((buildBundle runId f).status = .ready →
      (buildBundle runId f).tempDirRemains = false) ∧
    (buildBundle runId f).tempDirRemains =
      (f.runFound && f.containerAvail &&
        !(f.archiveOk && f.extractOk && f.copyOk && f.writeOk && f.zipOk
          && f.dbReadyOk)) := by
  rcases f with ⟨a, b, c, d, e, g, h, i⟩
  cases a <;> cases b <;> cases c <;> cases d <;> cases e <;> cases g <;>
    cases h <;> cases i <;> simp [buildBundle]

theorem buildBundle_temp_cleanup_witness :
    (buildBundle "r2" ⟨true, true, true, true, true, true, true, true⟩).tempDirRemains
      = false :=
  (buildBundle_temp_cleanup "r2" ⟨true, true, true, true, true, true, true, true⟩).1
    (by decide)

/-- C2: the unary handler's events.jsonl has exactly one run-start and one
run-complete with run-complete last, but the streaming handler writes
events.jsonl before emitting run-complete, so on the streaming path (success
and failure alike) the file contains no run-complete line at all — the code
contradicts the claimed file shape. Evaluated at a streaming run with
final text "hi" and an empty diff. -/
theorem stream_events_file_misses_run_complete :
    (streamEventsFile "hi" "").countP isRunComplete = 0 ∧
    (streamEmittedEvents "hi" "").countP isRunComplete = 1 ∧
    streamFailureEventsFile.countP isRunComplete = 0 ∧
    (unaryEventsFile "hi" "").getLast? = some (Ev.runComplete .succeeded none) ∧
    (unaryEventsFile "hi" "").countP isRunComplete = 1 ∧
    (unaryEventsFile "hi" "").countP (fun e => e == Ev.runStart) = 1 := by decide

/-- C5 counterexample: a run whose streaming worker call is aborted by the
AbortController (hard timeout) is updated to status `failed`, not `timeout`,
and the hard timeout is 10000 ms, not the claimed default of 60 seconds. -/
theorem aborted_run_marked_failed :
    (∃ r ∈ (messageExec
        ⟨"u1", "p1", "r1", 0, 500, 5, 10005, 1200000, none,
          "This operation was aborted"⟩
        (exec initDb (Step.openWs ⟨"u1", "p1", true, some "c1", "w1", 0⟩))).1.runs,
      r.id = "r1" ∧ r.status = .failed ∧ r.status ≠ .timeout) ∧
    streamWorkerTimeoutMs ≠ 60000 := by decide

/-- C6 counterexample: an Open of an existing cold workspace whose container
start (or clone) fails returns a 500 and leaves the workspace row exactly as
it was — in state `cold`, not in the claimed state `error`. -/
theorem open_failure_leaves_state_cold :
    (openExec ⟨"u1", "p1", true, none, "wf", 100⟩
        ⟨[⟨"w1", "u1", "p1", .cold, none, some "ws-p1", some "t1", 0, none⟩], []⟩).2
      = .serverError ∧
    (openExec ⟨"u1", "p1", true, none, "wf", 100⟩
        ⟨[⟨"w1", "u1", "p1", .cold, none, some "ws-p1", some "t1", 0, none⟩], []⟩).1.workspaces
      = [⟨"w1", "u1", "p1", .cold, none, some "ws-p1", some "t1", 0, none⟩] ∧
    WsState.cold ≠ WsState.error := by decide

/-- C6 amended: when the sandbox container start or clone fails during Open,
the request fails with a 500 server error and the target workspace row is
left exactly as it was; it is never updated to state `error`. -/
theorem open_sandbox_failure (a : OpenArgs) (db : Db) (w : Workspace)
    (hp : a.projectFound = true) (hs : a.sandbox = none)
    (hf : db.workspaces.find?
      (fun v => v.projectId == a.pid && v.userId == a.uid) = some w)
    (hw : (w.state == WsState.warm && w.containerId.isSome) = false) :
    (openExec a db).2 = .serverError ∧ w ∈ (openExec a db).1.workspaces := by
  have hmem : w ∈ db.workspaces := List.mem_of_find?_eq_some hf
  have hpred := List.find?_some hf
  have hpid : w.projectId == a.pid := by
    have := Bool.and_elim_left hpred
    simpa using this
  constructor
  · simp [openExec, hp, hf, hs, hw]
  · simp only [openExec, hp, hf, hs, hw, Bool.not_true, Bool.false_eq_true,
      if_false, lruPass]
    refine List.mem_map.mpr ⟨w, hmem, ?_⟩
    have : (w.state == WsState.warm && w.projectId != a.pid && w.userId == a.uid)
        = false := by
      simp only [bne, hpid, Bool.not_true, Bool.and_false, Bool.false_and,
        Bool.and_self]
    simp [this]

theorem open_sandbox_failure_witness :
    (openExec ⟨"u2", "p2", true, none, "wf2", 7⟩
        ⟨[⟨"w2", "u2", "p2", .cold, none, some "ws-p2", none, 0, none⟩], []⟩).2
      = .serverError ∧
    (⟨"w2", "u2", "p2", .cold, none, some "ws-p2", none, 0, none⟩ : Workspace)
      ∈ (openExec ⟨"u2", "p2", true, none, "wf2", 7⟩
        ⟨[⟨"w2", "u2", "p2", .cold, none, some "ws-p2", none, 0, none⟩], []⟩).1.workspaces :=
  open_sandbox_failure _ _ _ rfl rfl (by decide) (by decide)

/-- C9 counterexample: a fresh Open creates the workspace row in state
`warm`, but its volume name is "ws-" followed by the project id, not by the
new workspace's id. Evaluated with project id "p1" and a freshly generated
workspace id "wsid-9". -/
theorem volume_named_after_project :
    ∃ w ∈ (openExec ⟨"u1", "p1", true, some "c1", "wsid-9", 0⟩ initDb).1.workspaces,
      w.id = "wsid-9" ∧ w.state = .warm ∧ w.volumeName = some "ws-p1" ∧
      w.volumeName ≠ some ("ws-" ++ w.id) := by decide

/-- C8 counterexample: for the streaming token synthesis applied to a final
text that begins with whitespace (here " hi"), the emitted token sequences
are [1, 2]; the first token event carries sequence 1, not the claimed 0. -/
theorem first_token_sequence_not_zero :
    tokenSeqs " hi".toList = [1, 2] ∧
    (tokenSeqs " hi".toList).head? ≠ some 0 := by decide

/-! ### Lock-manager lemmas (C3) -/

theorem lockScheduleAux_start_ge (reqs : List LockReq) :
    ∀ (avail : String → Nat), ∀ t ∈ lockScheduleAux avail reqs,
      avail t.key ≤ t.start := by
  induction reqs with
  | nil => intro avail t ht; simp [lockScheduleAux] at ht
  | cons r rest ih =>
    intro avail t ht
    simp only [lockScheduleAux, List.mem_cons] at ht
    rcases ht with h | h
    · subst h; exact le_max_left _ _
    · have h2 := ih _ t h
      by_cases hk : t.key = r.key
      · rw [hk] at h2 ⊢
        simp only [if_pos rfl] at h2
        calc avail r.key ≤ max (avail r.key) r.enq := le_max_left _ _
          _ ≤ max (avail r.key) r.enq + r.dur := Nat.le_add_right _ _
          _ ≤ t.start := h2
      · simpa [if_neg hk] using h2

theorem lockScheduleAux_pairwise (reqs : List LockReq) :
    ∀ (avail : String → Nat), (∀ r ∈ reqs, 1 ≤ r.dur) →
      (lockScheduleAux avail reqs).Pairwise
        (fun a b => a.key = b.key → a.stop ≤ b.start ∧ a.start < b.start) := by
  induction reqs with
  | nil => intro avail _; simp [lockScheduleAux]
  | cons r rest ih =>
    intro avail hdur
    simp only [lockScheduleAux]
    refine List.Pairwise.cons ?_ (ih _ (fun x hx => hdur x (List.mem_cons_of_mem r hx)))
    intro t ht hkey
    have hstart := lockScheduleAux_start_ge rest _ t ht
    rw [← hkey] at hstart
    simp only [if_pos rfl] at hstart
    refine ⟨hstart, ?_⟩
    have hd : 1 ≤ r.dur := hdur r (List.mem_cons_self r rest)
    calc max (avail r.key) r.enq
        < max (avail r.key) r.enq + r.dur := Nat.lt_add_of_pos_right hd
      _ ≤ t.start := hstart

/-- C3: the per-key lock schedules the tasks of one key in FIFO enqueue
order: for any two requests on the same key, the earlier one releases the
key no later than the later one starts (their execution intervals do not
overlap), and — since each task holds the key for at least one clock tick —
the `started_at` timestamps taken at the start of each task are strictly
increasing. -/
theorem lock_serializes_fifo (reqs : List LockReq)
    (hdur : ∀ r ∈ reqs, 1 ≤ r.dur) :
    (lockSchedule reqs).Pairwise
      (fun a b => a.key = b.key → a.stop ≤ b.start ∧ a.start < b.start) :=
  lockScheduleAux_pairwise reqs _ hdur

theorem lock_serializes_fifo_witness :
    (lockSchedule [⟨"w1", 0, 5⟩, ⟨"w1", 1, 7⟩, ⟨"w2", 2, 3⟩]).Pairwise
      (fun a b => a.key = b.key → a.stop ≤ b.start ∧ a.start < b.start) :=
  lock_serializes_fifo [⟨"w1", 0, 5⟩, ⟨"w1", 1, 7⟩, ⟨"w2", 2, 3⟩] (by decide)

/-! ### Token-sequence lemmas (C8) -/

theorem enumFrom_pairwise_fst {α : Type} (l : List α) :
    ∀ n : Nat, (l.enumFrom n).Pairwise (fun a b => a.1 < b.1) := by
  induction l with
  | nil => intro n; simp
  | cons x xs ih =>
    intro n
    simp only [List.enumFrom]
    refine List.Pairwise.cons ?_ (ih (n + 1))
    intro y hy
    rcases y with ⟨i, a⟩
    exact Nat.lt_of_lt_of_le (Nat.lt_succ_self n) (List.mem_enumFrom hy).1

theorem splitCons_ne_nil (c : Char) (chunks : List (List Char)) :
    splitCons c chunks ≠ [] := by
  rcases chunks with _ | ⟨h, t⟩
  · by_cases hc : c.isWhitespace <;> simp [splitCons, hc]
  · by_cases hc : c.isWhitespace
    · rcases h with _ | ⟨x, xs⟩ <;> rcases t with _ | ⟨w, rest⟩ <;>
        simp [splitCons, hc]
    · simp [splitCons, hc]

theorem jsSplitWS_ne_nil (s : List Char) : jsSplitWS s ≠ [] := by
  rcases s with _ | ⟨c, cs⟩
  · simp [jsSplitWS]
  · exact splitCons_ne_nil c _

theorem tokenSeqsOf_streamTokenEvents (finalText : String) :
    tokenSeqsOf (streamTokenEvents finalText) = tokenSeqs finalText.toList := by
  simp only [tokenSeqsOf, streamTokenEvents, tokenSeqs]
  induction (jsSplitWS finalText.toList).enum.filter (fun p => !p.2.isEmpty) with
  | nil => rfl
  | cons x xs ih =>
    simp only [List.map_cons, List.filterMap_cons]
    rw [ih]

/-- C8 amended: within every run the emitted token sequences are strictly
monotonically increasing. The unary handler emits a single token event with
sequence 0 (exactly when final_text is nonempty), so on the unary path the
sequences are [0]. The streaming handler's sequences are the indices of the
nonempty chunks of the whitespace-preserving split: they start from 0 exactly
when final_text does not begin with a whitespace character; when it does, the
first streamed token event carries sequence 1. -/
theorem token_sequences_strictly_increasing (s : List Char)
    (finalText diff : String) :
    (tokenSeqs s).Pairwise (· < ·) ∧
    (∀ c cs, s = c :: cs → c.isWhitespace = false →
      (tokenSeqs s).head? = some 0) ∧
    (∀ c cs, s = c :: cs → c.isWhitespace = true →
      (tokenSeqs s).head? = some 1) ∧
    tokenSeqsOf (streamEmittedEvents finalText diff) = tokenSeqs finalText.toList ∧
    tokenSeqsOf (unaryEventsFile finalText diff)
      = (if finalText ≠ "" then [0] else []) ∧
    (tokenSeqsOf (unaryEventsFile finalText diff)).Pairwise (· < ·) := by
  refine ⟨?_, ?_, ?_, ?_, ?_, ?_⟩
  · have h1 : (jsSplitWS s).enum.Pairwise (fun a b => a.1 < b.1) :=
      enumFrom_pairwise_fst (jsSplitWS s) 0
    have h2 := h1.filter (fun p => !p.2.isEmpty)
    exact List.pairwise_map.mpr h2
  · rintro c cs rfl hc
    obtain ⟨h, t, hsplit⟩ := List.exists_cons_of_ne_nil (jsSplitWS_ne_nil cs)
    have : jsSplitWS (c :: cs) = (c :: h) :: t := by
      show splitCons c (jsSplitWS cs) = _
      rw [hsplit]
      simp [splitCons, hc]
    simp [tokenSeqs, this, List.enum_cons]
  · rintro c cs rfl hc
    obtain ⟨h, t, hsplit⟩ := List.exists_cons_of_ne_nil (jsSplitWS_ne_nil cs)
    have hstep : jsSplitWS (c :: cs) = splitCons c (h :: t) := by
      show splitCons c (jsSplitWS cs) = _
      rw [hsplit]
    rcases h with _ | ⟨x, xs⟩
    · rcases t with _ | ⟨w, rest⟩
      · simp [tokenSeqs, hstep, splitCons, hc, List.enum_cons]
      · simp [tokenSeqs, hstep, splitCons, hc, List.enum_cons]
    · simp [tokenSeqs, hstep, splitCons, hc, List.enum_cons]
  · have hts := tokenSeqsOf_streamTokenEvents finalText
    by_cases hd : diff = "" <;>
      simp only [tokenSeqsOf, streamEmittedEvents, List.filterMap_append,
        List.filterMap_cons, List.filterMap_nil, hd] at hts ⊢ <;>
      simp [hts, hd]
  · by_cases hf : finalText = "" <;> by_cases hd : diff = "" <;>
      simp [tokenSeqsOf, unaryEventsFile, List.filterMap_append, hf, hd]
  · by_cases hf : finalText = "" <;> by_cases hd : diff = "" <;>
      simp [tokenSeqsOf, unaryEventsFile, List.filterMap_append, hf, hd]

theorem token_sequences_strictly_increasing_witness :
    (tokenSeqs "so be it".toList).head? = some 0 ∧
    tokenSeqsOf (unaryEventsFile " hi" "") = [0] :=
  ⟨(token_sequences_strictly_increasing "so be it".toList " hi" "").2.1 's'
      "o be it".toList (by decide) (by decide),
    by
      have h := (token_sequences_strictly_increasing "so be it".toList " hi" "").2.2.2.2.1
      simpa using h⟩

/-! ### Quota (C4) -/

/-- C4: the quota check allows exactly when the count of the user's runs
started at or after the start of the current UTC day is strictly below the
maximum; a denied request is rejected with quota_exceeded and leaves the
whole database — in particular the runs table — unchanged, so no Run row is
inserted. Stated at the point where the user already has at least
`maxRuns` runs today (the call numbered `maxRuns + 1` and beyond). -/
theorem quota_denied_no_run_row (db : Db) (a : MsgArgs)
    (h : a.maxRuns ≤ quotaCount db.runs a.uid a.startOfDay) :
    (∀ mr : Nat, checkQuota db.runs a.uid a.startOfDay mr = true ↔
      quotaCount db.runs a.uid a.startOfDay < mr) ∧
    (messageExec a db).2 = .quotaExceeded ∧
    (messageExec a db).1 = db := by
  have hfalse : checkQuota db.runs a.uid a.startOfDay a.maxRuns = false := by
    simp [checkQuota, Nat.not_lt.mpr h]
  refine ⟨fun mr => by simp [checkQuota], ?_, ?_⟩ <;>
    simp [messageExec, hfalse]

theorem quota_denied_no_run_row_witness :
    (∀ mr : Nat, checkQuota
        [⟨"r1", "u1", "p1", "w1", .succeeded, 1, some 2, none⟩,
         ⟨"r2", "u1", "p1", "w1", .succeeded, 2, some 3, none⟩] "u1" 0 mr = true ↔
      quotaCount
        [⟨"r1", "u1", "p1", "w1", .succeeded, 1, some 2, none⟩,
         ⟨"r2", "u1", "p1", "w1", .succeeded, 2, some 3, none⟩] "u1" 0 < mr) ∧
    (messageExec ⟨"u1", "p1", "r3", 0, 2, 5, 6, 1000, none, "e"⟩
      ⟨[], [⟨"r1", "u1", "p1", "w1", .succeeded, 1, some 2, none⟩,
            ⟨"r2", "u1", "p1", "w1", .succeeded, 2, some 3, none⟩]⟩).2
      = .quotaExceeded ∧
    (messageExec ⟨"u1", "p1", "r3", 0, 2, 5, 6, 1000, none, "e"⟩
      ⟨[], [⟨"r1", "u1", "p1", "w1", .succeeded, 1, some 2, none⟩,
            ⟨"r2", "u1", "p1", "w1", .succeeded, 2, some 3, none⟩]⟩).1
      = ⟨[], [⟨"r1", "u1", "p1", "w1", .succeeded, 1, some 2, none⟩,
              ⟨"r2", "u1", "p1", "w1", .succeeded, 2, some 3, none⟩]⟩ :=
  quota_denied_no_run_row
    ⟨[], [⟨"r1", "u1", "p1", "w1", .succeeded, 1, some 2, none⟩,
          ⟨"r2", "u1", "p1", "w1", .succeeded, 2, some 3, none⟩]⟩
    ⟨"u1", "p1", "r3", 0, 2, 5, 6, 1000, none, "e"⟩ (by decide)

/-! ### Run statuses (C5) -/

theorem openExec_runs (a : OpenArgs) (db : Db) :
    (openExec a db).1.runs = db.runs := by
  simp only [openExec]
  by_cases hp : (!a.projectFound) = true
  · rw [if_pos hp]
  · rw [if_neg hp]
    cases hfind : List.find? (fun w => w.projectId == a.pid && w.userId == a.uid)
        db.workspaces with
    | none => cases a.sandbox <;> rfl
    | some w =>
      dsimp only
      cases hw : (w.state == WsState.warm && w.containerId.isSome) with
      | true => rfl
      | false => cases a.sandbox <;> rfl

theorem messageExec_no_timeout (a : MsgArgs) (db : Db)
    (h : ∀ r ∈ db.runs, r.status ≠ .timeout) :
    ∀ r ∈ (messageExec a db).1.runs, r.status ≠ .timeout := by
  unfold messageExec
  split
  · exact h
  · split
    · exact h
    · split
      · exact h
      · split
        · intro r hr
          simp only [updateRunBy, List.mem_map, List.mem_append,
            List.mem_singleton] at hr
          obtain ⟨x, hx, rfl⟩ := hr
          rcases hx with hx | rfl
          · by_cases hid : (x.id == a.runId) = true
            · simp [hid]
            · simp only [hid, Bool.false_eq_true, if_false]
              exact h x hx
          · simp
        · intro r hr
          simp only [updateRunBy, List.mem_map, List.mem_append,
            List.mem_singleton] at hr
          obtain ⟨x, hx, rfl⟩ := hr
          rcases hx with hx | rfl
          · by_cases hid : (x.id == a.runId) = true
            · simp [hid]
            · simp only [hid, Bool.false_eq_true, if_false]
              exact h x hx
          · simp

theorem exec_no_timeout (db : Db) (st : Step)
    (h : ∀ r ∈ db.runs, r.status ≠ .timeout) :
    ∀ r ∈ (exec db st).runs, r.status ≠ .timeout := by
  cases st with
  | openWs a =>
    show ∀ r ∈ (openExec a db).1.runs, r.status ≠ .timeout
    rw [openExec_runs]; exact h
  | message a => exact messageExec_no_timeout a db h
  | reap now => exact h
  | wsGC limit => exact h

theorem execTrace_no_timeout (tr : List Step) :
    ∀ db : Db, (∀ r ∈ db.runs, r.status ≠ .timeout) →
      ∀ r ∈ (execTrace db tr).runs, r.status ≠ .timeout := by
  induction tr with
  | nil => intro db h; exact h
  | cons s rest ih => intro db h; exact ih _ (exec_no_timeout db s h)

/-- C5 amended: the hard worker timeout of the streaming handler is 10000 ms
(10 seconds, hard-coded; the unary handler applies none), and when the agent
call exceeds it the run is updated to status `failed`: along any execution
from the empty database, no run row ever carries status `timeout`. -/
theorem hard_timeout_marks_failed (tr : List Step) :
    streamWorkerTimeoutMs = 10000 ∧
    ∀ r ∈ (execTrace initDb tr).runs, r.status ≠ RunStatus.timeout :=
  ⟨rfl, execTrace_no_timeout tr initDb (by simp [initDb])⟩

/-! ### Volume-name lemmas (C9) -/

theorem mem_map_vol_eq (rows : List Workspace) (f : Workspace → Workspace)
    (hid : ∀ v, (f v).id = v.id) (hvol : ∀ v, (f v).volumeName = v.volumeName)
    (w : Workspace) (hw : w ∈ rows) :
    ∃ w' ∈ rows.map f, w'.id = w.id ∧ w'.volumeName = w.volumeName :=
  ⟨f w, List.mem_map_of_mem f hw, hid w, hvol w⟩

theorem lruPass_vol (uid pid : String) (rows : List Workspace) (w : Workspace)
    (hw : w ∈ rows) :
    ∃ w' ∈ lruPass uid pid rows, w'.id = w.id ∧ w'.volumeName = w.volumeName := by
  simp only [lruPass]
  refine mem_map_vol_eq _ _ ?_ ?_ w hw <;> intro v <;>
    by_cases h : (v.state == WsState.warm && v.projectId != pid && v.userId == uid)
      = true <;> simp [h]

theorem exec_volume_preserved (db : Db) (st : Step) (w : Workspace)
    (hw : w ∈ db.workspaces) :
    ∃ w' ∈ (exec db st).workspaces, w'.id = w.id ∧
      (w'.volumeName = w.volumeName ∨
        (w'.state = .deleted ∧ w'.volumeName = none)) := by
  cases st with
  | openWs a =>
    show ∃ w' ∈ (openExec a db).1.workspaces, _
    simp only [openExec]
    by_cases hp : (!a.projectFound) = true
    · rw [if_pos hp]
      exact ⟨w, hw, rfl, Or.inl rfl⟩
    · rw [if_neg hp]
      obtain ⟨w1, hw1, hid1, hvol1⟩ := lruPass_vol a.uid a.pid db.workspaces w hw
      cases hfind : List.find? (fun v => v.projectId == a.pid && v.userId == a.uid)
          db.workspaces with
      | none =>
        cases a.sandbox with
        | none => exact ⟨w1, hw1, hid1, Or.inl hvol1⟩
        | some cid =>
          exact ⟨w1, List.mem_append_left _ hw1, hid1, Or.inl hvol1⟩
      | some tgt =>
        dsimp only
        cases hws : (tgt.state == WsState.warm && tgt.containerId.isSome) with
        | true => exact ⟨w1, hw1, hid1, Or.inl hvol1⟩
        | false =>
          cases a.sandbox with
          | none => exact ⟨w1, hw1, hid1, Or.inl hvol1⟩
          | some cid =>
            obtain ⟨w2, hw2, hid2, hvol2⟩ :=
              mem_map_vol_eq (lruPass a.uid a.pid db.workspaces)
                (fun v =>
                  if (v.id == tgt.id) = true then
                    { v with state := .warm, containerId := some cid,
                             idleExpiresAt := some (a.now + openIdleMs),
                             lastActiveAt := a.now }
                  else v)
                (fun v => by by_cases h : (v.id == tgt.id) = true <;> simp [h])
                (fun v => by by_cases h : (v.id == tgt.id) = true <;> simp [h])
                w1 hw1
            exact ⟨w2, hw2, hid2.trans hid1, Or.inl (hvol2.trans hvol1)⟩
  | message a =>
    show ∃ w' ∈ (messageExec a db).1.workspaces, _
    unfold messageExec
    split
    · exact ⟨w, hw, rfl, Or.inl rfl⟩
    · split
      · exact ⟨w, hw, rfl, Or.inl rfl⟩
      · rename_i tgt hfind
        split
        · exact ⟨w, hw, rfl, Or.inl rfl⟩
        · split
          · obtain ⟨w2, hw2, hid2, hvol2⟩ :=
              mem_map_vol_eq db.workspaces
                (fun v =>
                  if (v.id == tgt.id) = true then
                    { v with threadId := some _, lastActiveAt := a.fin,
                             idleExpiresAt := some (a.fin + a.idleMs) }
                  else v)
                (fun v => by by_cases h : (v.id == tgt.id) = true <;> simp [h])
                (fun v => by by_cases h : (v.id == tgt.id) = true <;> simp [h])
                w hw
            exact ⟨w2, hw2, hid2, Or.inl hvol2⟩
          · exact ⟨w, hw, rfl, Or.inl rfl⟩
  | reap now =>
    obtain ⟨w2, hw2, hid2, hvol2⟩ :=
      mem_map_vol_eq db.workspaces
        (fun v => if reapHit now v then { v with state := .cold, containerId := none }
          else v)
        (fun v => by by_cases h : reapHit now v = true <;> simp [h])
        (fun v => by by_cases h : reapHit now v = true <;> simp [h])
        w hw
    exact ⟨w2, hw2, hid2, Or.inl hvol2⟩
  | wsGC limit =>
    refine ⟨if gcHit limit w then { w with state := .deleted, volumeName := none }
      else w, List.mem_map_of_mem _ hw, ?_, ?_⟩
    · by_cases h : gcHit limit w = true <;> simp [h]
    · by_cases h : gcHit limit w = true
      · simp [h]
      · simp [h]

/-- C9 amended: when Open creates a workspace row that did not previously
exist, the new row is in state warm with `volume_name = "ws-" ++ project_id`
(the volume is named after the project id, not the workspace id), and no
operation ever rewrites an existing row's volume name except the retention
sweep, which nulls it exactly when it moves the row to state `deleted`. -/
theorem volume_allocated_once_per_project :
    (∀ (db : Db) (st : Step) (w : Workspace), w ∈ db.workspaces →
      ∃ w' ∈ (exec db st).workspaces, w'.id = w.id ∧
        (w'.volumeName = w.volumeName ∨
          (w'.state = .deleted ∧ w'.volumeName = none))) ∧
    (∀ (db : Db) (a : OpenArgs) (cid : String), a.projectFound = true →
      a.sandbox = some cid →
      db.workspaces.find? (fun v => v.projectId == a.pid && v.userId == a.uid)
        = none →
      ∃ w' ∈ (openExec a db).1.workspaces,
        w'.id = a.freshId ∧ w'.state = .warm ∧
        w'.volumeName = some ("ws-" ++ a.pid)) := by
  refine ⟨exec_volume_preserved, ?_⟩
  intro db a cid hp hs hfind
  simp only [openExec, hp, Bool.not_true, Bool.false_eq_true, if_false, hfind, hs]
  exact ⟨_, List.mem_append_right _ (List.mem_singleton.mpr rfl), rfl, rfl, rfl⟩

theorem volume_allocated_once_per_project_witness :
    ∃ w' ∈ (openExec ⟨"u1", "p1", true, some "c1", "wsid-7", 3⟩ initDb).1.workspaces,
      w'.id = "wsid-7" ∧ w'.state = .warm ∧ w'.volumeName = some ("ws-" ++ "p1") :=
  volume_allocated_once_per_project.2 initDb
    ⟨"u1", "p1", true, some "c1", "wsid-7", 3⟩ "c1" rfl rfl (by decide)

theorem hard_timeout_marks_failed_witness :
    streamWorkerTimeoutMs = 10000 ∧
    ∀ r ∈ (execTrace initDb
      [Step.openWs ⟨"u1", "p1", true, some "c1", "w1", 0⟩,
       Step.message ⟨"u1", "p1", "r1", 0, 5, 3, 9, 1000, none, "aborted"⟩]).runs,
      r.status ≠ RunStatus.timeout :=
  hard_timeout_marks_failed
    [Step.openWs ⟨"u1", "p1", true, some "c1", "w1", 0⟩,
     Step.message ⟨"u1", "p1", "r1", 0, 5, 3, 9, 1000, none, "aborted"⟩]

/-! ### Counting lemmas for the single-warm invariant (C1) -/

theorem warmCount_eq (u : String) (rows : List Workspace) :
    warmCount u rows = rows.countP (warmP u) := rfl

theorem countP_map_le (p : Workspace → Bool) (f : Workspace → Workspace)
    (rows : List Workspace) (h : ∀ v, p (f v) = true → p v = true) :
    (rows.map f).countP p ≤ rows.countP p := by
  induction rows with
  | nil => simp
  | cons x xs ih =>
    simp only [List.map_cons, List.countP_cons]
    by_cases hx : p (f x) = true
    · rw [hx, h x hx]
      exact Nat.add_le_add_right ih 1
    · rw [Bool.not_eq_true] at hx
      rw [hx]
      simp only [Bool.false_eq_true, if_false, Nat.add_zero]
      exact Nat.le_trans ih (Nat.le_add_right _ _)

theorem countP_map_eq (p : Workspace → Bool) (f : Workspace → Workspace)
    (rows : List Workspace) (h : ∀ v ∈ rows, p (f v) = p v) :
    (rows.map f).countP p = rows.countP p := by
  induction rows with
  | nil => simp
  | cons x xs ih =>
    simp only [List.map_cons, List.countP_cons]
    rw [h x (List.mem_cons_self x xs),
      ih (fun v hv => h v (List.mem_cons_of_mem x hv))]

theorem countP_le_one_of_key (p : Workspace → Bool) (k : String × String)
    (rows : List Workspace)
    (hnd : (rows.map (fun v => (v.userId, v.projectId))).Nodup)
    (hk : ∀ v ∈ rows, p v = true → (v.userId, v.projectId) = k) :
    rows.countP p ≤ 1 := by
  induction rows with
  | nil => simp
  | cons x xs ih =>
    simp only [List.map_cons, List.nodup_cons] at hnd
    simp only [List.countP_cons]
    by_cases hx : p x = true
    · have hzero : xs.countP p = 0 := by
        rw [List.countP_eq_zero]
        intro v hv hpv
        have h1 : (v.userId, v.projectId) = k :=
          hk v (List.mem_cons_of_mem x hv) hpv
        have h2 : (x.userId, x.projectId) = k :=
          hk x (List.mem_cons_self x xs) hx
        exact absurd (List.mem_map.mpr ⟨v, hv, h1.trans h2.symm⟩) hnd.1
      rw [hzero, hx, if_pos rfl]
    · rw [Bool.not_eq_true] at hx
      rw [hx]
      simp only [Bool.false_eq_true, if_false, Nat.add_zero]
      exact ih hnd.2 (fun v hv hpv => hk v (List.mem_cons_of_mem x hv) hpv)

theorem map_map_eq_of_comp {β : Type} (rows : List Workspace)
    (f : Workspace → Workspace) (g : Workspace → β)
    (h : ∀ v, g (f v) = g v) :
    (rows.map f).map g = rows.map g := by
  rw [List.map_map]
  congr 1
  funext v
  exact h v

/-! ### LRU-pass lemmas (C1) -/

theorem lruPass_warm_key (uid pid : String) (rows : List Workspace) :
    ∀ v ∈ lruPass uid pid rows, warmP uid v = true →
      v.userId = uid ∧ v.projectId = pid := by
  intro v hv hp
  simp only [lruPass, List.mem_map] at hv
  obtain ⟨x, hx, rfl⟩ := hv
  by_cases hc :
      (x.state == WsState.warm && x.projectId != pid && x.userId == uid) = true
  · rw [if_pos hc] at hp
    simp [warmP] at hp
  · rw [if_neg hc] at hp ⊢
    simp only [warmP, Bool.and_eq_true, beq_iff_eq] at hp
    obtain ⟨hu, hs⟩ := hp
    refine ⟨hu, ?_⟩
    by_contra hne
    apply hc
    simp [hs, hu, bne, hne]

theorem lruPass_warm_le (uid pid u : String) (rows : List Workspace) :
    (lruPass uid pid rows).countP (warmP u) ≤ rows.countP (warmP u) := by
  simp only [lruPass]
  apply countP_map_le
  intro v hv
  by_cases hc :
      (v.state == WsState.warm && v.projectId != pid && v.userId == uid) = true
  · rw [if_pos hc] at hv
    simp [warmP] at hv
  · rwa [if_neg hc] at hv

theorem lruPass_ids (uid pid : String) (rows : List Workspace) :
    (lruPass uid pid rows).map (fun w => w.id) = rows.map (fun w => w.id) := by
  simp only [lruPass]
  apply map_map_eq_of_comp
  intro v
  by_cases hc :
      (v.state == WsState.warm && v.projectId != pid && v.userId == uid) = true <;>
    simp [hc]

theorem lruPass_keys (uid pid : String) (rows : List Workspace) :
    (lruPass uid pid rows).map (fun w => (w.userId, w.projectId))
      = rows.map (fun w => (w.userId, w.projectId)) := by
  simp only [lruPass]
  apply map_map_eq_of_comp
  intro v
  by_cases hc :
      (v.state == WsState.warm && v.projectId != pid && v.userId == uid) = true <;>
    simp [hc]

theorem lruPass_target_self (uid pid : String) (rows : List Workspace)
    (tgt : Workspace)
    (hfind : rows.find? (fun v => v.projectId == pid && v.userId == uid) = some tgt)
    (hids : (rows.map (fun w => w.id)).Nodup) :
    ∀ v ∈ lruPass uid pid rows, v.id = tgt.id → v = tgt := by
  intro v hv hvid
  have htgtmem : tgt ∈ rows := List.mem_of_find?_eq_some hfind
  have hpred := List.find?_some hfind
  have htp : tgt.projectId = pid := by
    simp only [Bool.and_eq_true, beq_iff_eq] at hpred
    exact hpred.1
  simp only [lruPass, List.mem_map] at hv
  obtain ⟨x, hx, rfl⟩ := hv
  have hxid : x.id = tgt.id := by
    by_cases hc :
        (x.state == WsState.warm && x.projectId != pid && x.userId == uid) = true
    · rw [if_pos hc] at hvid
      exact hvid
    · rw [if_neg hc] at hvid
      exact hvid
  have hxeq : x = tgt := List.inj_on_of_nodup_map hids hx htgtmem hxid
  subst hxeq
  have hc : (x.state == WsState.warm && x.projectId != pid && x.userId == uid)
      = false := by
    simp [htp, bne]
  rw [hc]
  simp

/-! ### Invariant preservation (C1) -/

theorem lruPass_inv (uid pid : String) (db : Db) (hinv : DbInv db) :
    DbInv ⟨lruPass uid pid db.workspaces, db.runs⟩ := by
  refine ⟨?_, ?_, ?_⟩
  · rw [show (⟨lruPass uid pid db.workspaces, db.runs⟩ : Db).workspaces
        = lruPass uid pid db.workspaces from rfl, lruPass_ids]
    exact hinv.ids
  · rw [show (⟨lruPass uid pid db.workspaces, db.runs⟩ : Db).workspaces
        = lruPass uid pid db.workspaces from rfl, lruPass_keys]
    exact hinv.keys
  · intro u
    rw [warmCount_eq]
    exact le_trans (lruPass_warm_le uid pid u db.workspaces)
      (by rw [← warmCount_eq]; exact hinv.warm u)

theorem dbinv_map_le (db : Db) (f : Workspace → Workspace) (runs2 : List Run)
    (hid : ∀ v, (f v).id = v.id)
    (hkey : ∀ v, (f v).userId = v.userId ∧ (f v).projectId = v.projectId)
    (hwarm : ∀ u v, warmP u (f v) = true → warmP u v = true)
    (hinv : DbInv db) :
    DbInv ⟨db.workspaces.map f, runs2⟩ := by
  refine ⟨?_, ?_, ?_⟩
  · rw [show (⟨db.workspaces.map f, runs2⟩ : Db).workspaces
        = db.workspaces.map f from rfl, map_map_eq_of_comp _ f _ hid]
    exact hinv.ids
  · rw [show (⟨db.workspaces.map f, runs2⟩ : Db).workspaces
        = db.workspaces.map f from rfl,
      map_map_eq_of_comp _ f _ (fun v => by simp [(hkey v).1, (hkey v).2])]
    exact hinv.keys
  · intro u
    rw [warmCount_eq]
    exact le_trans (countP_map_le _ f _ (hwarm u))
      (by rw [← warmCount_eq]; exact hinv.warm u)

theorem reapExec_inv (now : Nat) (db : Db) (hinv : DbInv db) :
    DbInv (reapExec now db) := by
  show DbInv ⟨db.workspaces.map (fun w =>
    if reapHit now w then { w with state := .cold, containerId := none } else w),
    db.runs⟩
  refine dbinv_map_le db _ db.runs ?_ ?_ ?_ hinv
  · intro v; by_cases h : reapHit now v = true <;> simp [h]
  · intro v; by_cases h : reapHit now v = true <;> simp [h]
  · intro u v hv
    by_cases h : reapHit now v = true
    · rw [if_pos h] at hv
      simp [warmP] at hv
    · rwa [if_neg h] at hv

theorem wsGCExec_inv (limit : Nat) (db : Db) (hinv : DbInv db) :
    DbInv (wsGCExec limit db) := by
  show DbInv ⟨db.workspaces.map (fun w =>
    if gcHit limit w then { w with state := .deleted, volumeName := none } else w),
    db.runs⟩
  refine dbinv_map_le db _ db.runs ?_ ?_ ?_ hinv
  · intro v; by_cases h : gcHit limit v = true <;> simp [h]
  · intro v; by_cases h : gcHit limit v = true <;> simp [h]
  · intro u v hv
    by_cases h : gcHit limit v = true
    · rw [if_pos h] at hv
      simp [warmP] at hv
    · rwa [if_neg h] at hv

theorem messageExec_inv (a : MsgArgs) (db : Db) (hinv : DbInv db) :
    DbInv (messageExec a db).1 := by
  unfold messageExec
  split
  · exact hinv
  · split
    · exact hinv
    · rename_i tgt hfind
      split
      · exact hinv
      · split
        · rename_i resp hresp
          refine dbinv_map_le db _ _ ?_ ?_ ?_ hinv
          · intro v; by_cases h : (v.id == tgt.id) = true <;> simp [h]
          · intro v; by_cases h : (v.id == tgt.id) = true <;> simp [h]
          · intro u v hv
            by_cases h : (v.id == tgt.id) = true
            · rw [if_pos h] at hv
              simpa [warmP] using hv
            · rwa [if_neg h] at hv
        · exact ⟨hinv.ids, hinv.keys, hinv.warm⟩

theorem open_insert_inv (a : OpenArgs) (cid : String) (db : Db)
    (hfresh : a.freshId ∉ db.workspaces.map (fun w => w.id))
    (hfind : db.workspaces.find?
      (fun w => w.projectId == a.pid && w.userId == a.uid) = none)
    (hinv : DbInv db) :
    DbInv ⟨lruPass a.uid a.pid db.workspaces ++
      [{ id := a.freshId, userId := a.uid, projectId := a.pid, state := .warm,
         containerId := some cid, volumeName := some (volumeNameFor a.pid),
         threadId := none, lastActiveAt := a.now,
         idleExpiresAt := some (a.now + openIdleMs) }], db.runs⟩ := by
  have hkeysnone : ∀ x ∈ db.workspaces,
      ¬(x.projectId == a.pid && x.userId == a.uid) = true :=
    List.find?_eq_none.mp hfind
  refine ⟨?_, ?_, ?_⟩
  · rw [show (⟨lruPass a.uid a.pid db.workspaces ++ [_], db.runs⟩ : Db).workspaces
        = lruPass a.uid a.pid db.workspaces ++ [_] from rfl,
      List.map_append, lruPass_ids, List.nodup_append]
    refine ⟨hinv.ids, List.nodup_singleton _, ?_⟩
    intro x hx hx2
    simp only [List.map_cons, List.map_nil, List.mem_singleton] at hx2
    subst hx2
    exact hfresh hx
  · rw [show (⟨lruPass a.uid a.pid db.workspaces ++ [_], db.runs⟩ : Db).workspaces
        = lruPass a.uid a.pid db.workspaces ++ [_] from rfl,
      List.map_append, lruPass_keys, List.nodup_append]
    refine ⟨hinv.keys, List.nodup_singleton _, ?_⟩
    intro x hx hx2
    simp only [List.map_cons, List.map_nil, List.mem_singleton] at hx2
    subst hx2
    obtain ⟨v, hv, hkv⟩ := List.mem_map.mp hx
    apply hkeysnone v hv
    have h1 : v.userId = a.uid := congrArg Prod.fst hkv
    have h2 : v.projectId = a.pid := congrArg Prod.snd hkv
    simp [h1, h2]
  · intro u
    rw [warmCount_eq]
    rw [show (⟨lruPass a.uid a.pid db.workspaces ++ [_], db.runs⟩ : Db).workspaces
        = lruPass a.uid a.pid db.workspaces ++ [_] from rfl,
      List.countP_append]
    by_cases hu : u = a.uid
    · subst hu
      have h0 : (lruPass a.uid a.pid db.workspaces).countP (warmP a.uid) = 0 := by
        rw [List.countP_eq_zero]
        intro v hv hpv
        have hk := lruPass_warm_key a.uid a.pid db.workspaces v hv hpv
        simp only [lruPass, List.mem_map] at hv
        obtain ⟨x, hx, rfl⟩ := hv
        have hux : x.userId = a.uid ∧ x.projectId = a.pid := by
          by_cases hc : (x.state == WsState.warm && x.projectId != a.pid
              && x.userId == a.uid) = true
          · rw [if_pos hc] at hk; exact hk
          · rw [if_neg hc] at hk; exact hk
        exact hkeysnone x hx (by simp [hux.1, hux.2])
      rw [h0]
      simp [warmP]
    · have hle : (lruPass a.uid a.pid db.workspaces).countP (warmP u) ≤ 1 :=
        le_trans (lruPass_warm_le a.uid a.pid u db.workspaces) (hinv.warm u)
      have hone : List.countP (warmP u)
          [({ id := a.freshId, userId := a.uid, projectId := a.pid,
              state := .warm, containerId := some cid,
              volumeName := some (volumeNameFor a.pid), threadId := none,
              lastActiveAt := a.now,
              idleExpiresAt := some (a.now + openIdleMs) } : Workspace)] = 0 := by
        have hne : a.uid ≠ u := fun h => hu h.symm
        simp [warmP, List.countP_cons, hne]
      rw [hone]
      simpa using hle

theorem open_update_inv (a : OpenArgs) (cid : String) (db : Db) (tgt : Workspace)
    (hfind : db.workspaces.find?
      (fun w => w.projectId == a.pid && w.userId == a.uid) = some tgt)
    (hinv : DbInv db) :
    DbInv ⟨(lruPass a.uid a.pid db.workspaces).map (fun v =>
      if (v.id == tgt.id) = true then
        { v with state := .warm, containerId := some cid,
                 idleExpiresAt := some (a.now + openIdleMs),
                 lastActiveAt := a.now }
      else v), db.runs⟩ := by
  have hpred := List.find?_some hfind
  simp only [Bool.and_eq_true, beq_iff_eq] at hpred
  have hid_upd : ∀ v : Workspace,
      ((if (v.id == tgt.id) = true then
        ({ v with state := .warm, containerId := some cid,
                  idleExpiresAt := some (a.now + openIdleMs),
                  lastActiveAt := a.now } : Workspace)
      else v)).id = v.id := by
    intro v; by_cases h : (v.id == tgt.id) = true <;> simp [h]
  refine ⟨?_, ?_, ?_⟩
  · rw [show (⟨(lruPass a.uid a.pid db.workspaces).map _, db.runs⟩ : Db).workspaces
        = (lruPass a.uid a.pid db.workspaces).map _ from rfl,
      map_map_eq_of_comp _ _ _ hid_upd, lruPass_ids]
    exact hinv.ids
  · rw [show (⟨(lruPass a.uid a.pid db.workspaces).map _, db.runs⟩ : Db).workspaces
        = (lruPass a.uid a.pid db.workspaces).map _ from rfl,
      map_map_eq_of_comp _ _ _ (fun v => by
        by_cases h : (v.id == tgt.id) = true <;> simp [h]), lruPass_keys]
    exact hinv.keys
  · intro u
    rw [warmCount_eq]
    by_cases hu : u = a.uid
    · subst hu
      refine countP_le_one_of_key _ (a.uid, a.pid) _ ?_ ?_
      · rw [map_map_eq_of_comp _ _ _ (fun v => by
          by_cases h : (v.id == tgt.id) = true <;> simp [h]), lruPass_keys]
        exact hinv.keys
      · intro v2 hv2 hp2
        obtain ⟨v, hv, rfl⟩ := List.mem_map.mp hv2
        by_cases hc : (v.id == tgt.id) = true
        · have hvt : v = tgt :=
            lruPass_target_self a.uid a.pid db.workspaces tgt hfind hinv.ids v hv
              (by simpa using hc)
          subst hvt
          rw [if_pos hc]
          simp [hpred.1, hpred.2]
        · rw [if_neg hc] at hp2 ⊢
          have hk := lruPass_warm_key a.uid a.pid db.workspaces v hv hp2
          simp [hk.1, hk.2]
    · rw [countP_map_eq _ _ _ ?_]
      · exact le_trans (lruPass_warm_le a.uid a.pid u db.workspaces)
          (by rw [← warmCount_eq]; exact hinv.warm u)
      · intro v hv
        by_cases hc : (v.id == tgt.id) = true
        · have hvt : v = tgt :=
            lruPass_target_self a.uid a.pid db.workspaces tgt hfind hinv.ids v hv
              (by simpa using hc)
          subst hvt
          rw [if_pos hc]
          have hne : v.userId ≠ u := by rw [hpred.2]; exact fun h => hu h.symm
          simp [warmP, hne]
        · rw [if_neg hc]

theorem openExec_inv (a : OpenArgs) (db : Db)
    (hfresh : a.freshId ∉ db.workspaces.map (fun w => w.id))
    (hinv : DbInv db) : DbInv (openExec a db).1 := by
  simp only [openExec]
  by_cases hp : (!a.projectFound) = true
  · rw [if_pos hp]; exact hinv
  · rw [if_neg hp]
    cases hfind : List.find? (fun w => w.projectId == a.pid && w.userId == a.uid)
        db.workspaces with
    | none =>
      cases a.sandbox with
      | none => exact lruPass_inv a.uid a.pid db hinv
      | some cid => exact open_insert_inv a cid db hfresh hfind hinv
    | some tgt =>
      dsimp only
      cases hws : (tgt.state == WsState.warm && tgt.containerId.isSome) with
      | true => exact lruPass_inv a.uid a.pid db hinv
      | false =>
        cases a.sandbox with
        | none => exact lruPass_inv a.uid a.pid db hinv
        | some cid => exact open_update_inv a cid db tgt hfind hinv

theorem exec_inv (db : Db) (st : Step) (hfresh : freshOk db st = true)
    (hinv : DbInv db) : DbInv (exec db st) := by
  cases st with
  | openWs a =>
    refine openExec_inv a db ?_ hinv
    simp only [freshOk, Bool.not_eq_true'] at hfresh
    simpa using hfresh
  | message a => exact messageExec_inv a db hinv
  | reap now => exact reapExec_inv now db hinv
  | wsGC limit => exact wsGCExec_inv limit db hinv

theorem execTrace_inv (tr : List Step) :
    ∀ db : Db, wfTrace db tr = true → DbInv db → DbInv (execTrace db tr) := by
  induction tr with
  | nil => intro db _ hinv; exact hinv
  | cons s rest ih =>
    intro db hwf hinv
    simp only [wfTrace, Bool.and_eq_true] at hwf
    exact ih _ hwf.2 (exec_inv db s hwf.1 hinv)

/-- C1: along any well-formed execution from the empty database (open,
message, reaper sweep and retention sweep steps, with database-generated
workspace ids fresh), after every completed step each user owns at most one
workspace row in state warm. -/
theorem single_warm_per_user (tr : List Step) (hwf : wfTrace initDb tr = true)
    (u : String) :
    warmCount u (execTrace initDb tr).workspaces ≤ 1 :=
  (execTrace_inv tr initDb hwf
    ⟨by simp [initDb], by simp [initDb], fun _ => by simp [initDb, warmCount]⟩).warm u

theorem single_warm_per_user_witness :
    warmCount "u1" (execTrace initDb
      [Step.openWs ⟨"u1", "p1", true, some "c1", "w1", 0⟩,
       Step.openWs ⟨"u1", "p2", true, some "c2", "w2", 1⟩,
       Step.openWs ⟨"u2", "p3", true, some "c3", "w3", 2⟩]).workspaces ≤ 1 :=
  single_warm_per_user
    [Step.openWs ⟨"u1", "p1", true, some "c1", "w1", 0⟩,
     Step.openWs ⟨"u1", "p2", true, some "c2", "w2", 1⟩,
     Step.openWs ⟨"u2", "p3", true, some "c3", "w3", 2⟩] (by decide) "u1"

end Arp
